import Mathlib

/-!
Verification development for the nikke wiki-extraction pipeline.

The definitions below are shallow embeddings of the TypeScript sources:
* `Result` and `makeObj` embed `scripts/index.ts` (Result class, record assembler);
* the six `parse…` functions, `firstChild`, `lastChild`, `walk`,
  `extractNikke` and `extractNikkeList` embed `scripts/dump.ts`;
* `xorShift`, `intRange` and `pick` embed `src/lib/nikke/utils.ts` with
  JavaScript 32-bit signed integer semantics made explicit.

Document trees are modelled by the `HNode`/`HForest` mutual inductive; a
`Loc` is a zipper position inside a tree, mirroring the external DOM
accessors (`parentNode`, `nextElementSibling`, `previousElementSibling`,
`childNodes`) used by the code.  A JavaScript exception (property access on
`null`/`undefined`) is modelled explicitly: `WalkSt.panic` inside the walk
loop, `Option.none` at the level of whole extraction calls.
-/

set_option autoImplicit false

/-- Single apostrophe character as a string, used in the error messages of
the source (written via a character code). -/
def apos : String := String.mk [Char.ofNat 39]

/-- Whether `needle` occurs at the head of `hay`. -/
def occursAt : List Char → List Char → Bool
  | [], _ => true
  | _ :: _, [] => false
  | a :: as, b :: bs => a = b && occursAt as bs

/-- Whether `needle` occurs somewhere inside `hay`. -/
def occursIn (needle : List Char) : List Char → Bool
  | [] => needle.isEmpty
  | b :: bs => occursAt needle (b :: bs) || occursIn needle bs

/-- Substring containment test, used to express that an error message names
an offending input. -/
def strContains (hay needle : String) : Bool :=
  occursIn needle.data hay.data

/-- Embedding of the `Result<Value, Err>` class of `scripts/index.ts`:
exactly one of `Ok` or `Err`. -/
inductive Result (V E : Type) where
  | Ok (v : V)
  | Err (e : E)
deriving DecidableEq, Repr

/-- `Result.isOk` getter. -/
def Result.isOk {V E : Type} : Result V E → Bool
  | .Ok _ => true
  | .Err _ => false

/-- `Result.isErr` getter. -/
def Result.isErr {V E : Type} : Result V E → Bool
  | .Ok _ => false
  | .Err _ => true

/-- `Result.map`. -/
def Result.map {V E W : Type} (f : V → W) : Result V E → Result W E
  | .Ok v => .Ok (f v)
  | .Err e => .Err e

/-- `Result.flatMap`. -/
def Result.flatMap {V E W : Type} (f : V → Result W E) : Result V E → Result W E
  | .Ok v => f v
  | .Err e => .Err e

/-- `Result.mapErr`. -/
def Result.mapErr {V E F : Type} (f : E → F) : Result V E → Result V F
  | .Ok v => .Ok v
  | .Err e => .Err (f e)

/-- `Result.orDefault`: the success value, or the fallback. -/
def Result.orDefault {V E : Type} (fallback : V) : Result V E → V
  | .Ok v => v
  | .Err _ => fallback

/-- `Result.FromNullish`: `Ok` on a present value, `Err` on `null`/`undefined`
(modelled by `Option.none`). -/
def Result.FromNullish {V E : Type} (value : Option V) (err : E) : Result V E :=
  match value with
  | some v => .Ok v
  | none => .Err err

/-- `Rarity` enum of `src/lib/nikke/utils.ts`. -/
inductive Rarity | R | Sr | Ssr
deriving DecidableEq, Repr

/-- `Burst` enum. -/
inductive Burst | I | II | III | A
deriving DecidableEq, Repr

/-- `Code` (element) enum. -/
inductive Code | Fire | Water | Electric | Iron | Wind
deriving DecidableEq, Repr

/-- `Weapon` enum. -/
inductive Weapon | Shotgun | SubmachineGun | MachineGun | AssaultRifle | SniperRifle | RocketLauncher
deriving DecidableEq, Repr

/-- `Position` enum. -/
inductive Position | Attacker | Supporter | Defender
deriving DecidableEq, Repr

/-- `Manufacturer` enum. -/
inductive Manufacturer | Elysion | Missilis | Tetra | Pilgrim | Abnormal
deriving DecidableEq, Repr

/-- `parseRarity` of `scripts/dump.ts`: switch over the three literals,
default branch producing `unknown rarity <input>`. -/
def parseRarity (rarity : String) : Result Rarity String :=
  if rarity = "R" then .Ok .R
  else if rarity = "Sr" then .Ok .Sr
  else if rarity = "Ssr" then .Ok .Ssr
  else .Err ("unknown rarity " ++ apos ++ rarity ++ apos)

/-- `parseBurst` of `scripts/dump.ts`. -/
def parseBurst (burst : String) : Result Burst String :=
  if burst = "Step1" then .Ok .I
  else if burst = "Step2" then .Ok .II
  else if burst = "Step3" then .Ok .III
  else if burst = "StepAll" then .Ok .A
  else .Err ("unknown burst " ++ apos ++ burst ++ apos)

/-- `parseWeapon` of `scripts/dump.ts`. -/
def parseWeapon (weapon : String) : Result Weapon String :=
  if weapon = "Shotgun" then .Ok .Shotgun
  else if weapon = "Submachine Gun" then .Ok .SubmachineGun
  else if weapon = "Machine Gun" then .Ok .MachineGun
  else if weapon = "Assault Rifle" then .Ok .AssaultRifle
  else if weapon = "Sniper Rifle" then .Ok .SniperRifle
  else if weapon = "Rocket Launcher" then .Ok .RocketLauncher
  else .Err ("unknown weapon " ++ apos ++ weapon ++ apos)

/-- `parsePosition` of `scripts/dump.ts`. -/
def parsePosition (position : String) : Result Position String :=
  if position = "Category:Attackers" then .Ok .Attacker
  else if position = "Category:Supporters" then .Ok .Supporter
  else if position = "Category:Defenders" then .Ok .Defender
  else .Err ("unknown position " ++ apos ++ position ++ apos)

/-- `parseManufacturer` of `scripts/dump.ts`. -/
def parseManufacturer (manufacturer : String) : Result Manufacturer String :=
  if manufacturer = "Elysion" then .Ok .Elysion
  else if manufacturer = "Missilis Industry" then .Ok .Missilis
  else if manufacturer = "Tetra Line" then .Ok .Tetra
  else if manufacturer = "Pilgrim" then .Ok .Pilgrim
  else if manufacturer = "Abnormal" then .Ok .Abnormal
  else .Err ("unknown manufacturer " ++ apos ++ manufacturer ++ apos)

/-- JavaScript `\w` character class: ASCII letters, digits, underscore. -/
def wordChar (c : Char) : Bool :=
  c.isAlpha || c.isDigit || c = Char.ofNat 95

/-- Leftmost match of the regular expression of `parseCode`: an opening
parenthesis, one or more word characters, a closing parenthesis.  Returns
the matched substring (`exec(...)?.[0]`). -/
def findParen : List Char → Option String
  | [] => none
  | c :: rest =>
    if c = Char.ofNat 40 then
      let run := rest.takeWhile wordChar
      if run ≠ [] ∧ (rest.drop run.length).head? = some (Char.ofNat 41) then
        some (String.mk (c :: run ++ [Char.ofNat 41]))
      else
        findParen rest
    else
      findParen rest

/-- `parseCode` of `scripts/dump.ts`: extracts the first parenthesized word
via the regular expression and switches on it; the default branch
stringifies the extracted value (the text `undefined` when there is no
match), not the raw input. -/
def parseCode (code : String) : Result Code String :=
  let element := findParen code.data
  if element = some "(Fire)" then .Ok .Fire
  else if element = some "(Water)" then .Ok .Water
  else if element = some "(Electric)" then .Ok .Electric
  else if element = some "(Iron)" then .Ok .Iron
  else if element = some "(Wind)" then .Ok .Wind
  else .Err ("unknown element code " ++ apos ++ (match element with | some e => e | none => "undefined") ++ apos)

example : parseRarity "Ssr" = .Ok .Ssr := by decide
example : parseCode "(Fire)" = .Ok .Fire := by decide
example : parseCode "He (Wind) x" = .Ok .Wind := by decide
example : parseCode "foo" = .Err ("unknown element code " ++ apos ++ "undefined" ++ apos) := by decide

mutual
/-- Document tree node, mirroring the external HTML parser: a text node or
an element with a tag, attributes and child nodes. -/
inductive HNode where
  | text (s : String) : HNode
  | elem (tag : String) (attrs : List (String × String)) (children : HForest) : HNode
/-- A list of document tree nodes (the `childNodes` of an element). -/
inductive HForest where
  | nil : HForest
  | cons (hd : HNode) (tl : HForest) : HForest
end

/-- Convert a list of nodes into a forest (for writing document literals). -/
def hf : List HNode → HForest
  | [] => .nil
  | n :: ns => .cons n (hf ns)

/-- Convert a forest back into a list of nodes. -/
def HForest.toList : HForest → List HNode
  | .nil => []
  | .cons n ns => n :: ns.toList

/-- Whether a node is an element node (`nodeType === ELEMENT_NODE`). -/
def HNode.isElem : HNode → Bool
  | .text _ => false
  | .elem _ _ _ => true

/-- The child-node list of a node (empty for text nodes). -/
def HNode.childList : HNode → List HNode
  | .text _ => []
  | .elem _ _ cs => cs.toList

/-- Attribute lookup (`e.attrs[name]`), `none` when absent. -/
def HNode.attr : HNode → String → Option String
  | .text _, _ => none
  | .elem _ attrs _, name => attrs.lookup name

mutual
/-- `textContent`: concatenated text of all descendant text nodes. -/
def textContent : HNode → String
  | .text s => s
  | .elem _ _ cs => textContentF cs
/-- `textContent` of a forest of nodes. -/
def textContentF : HForest → String
  | .nil => ""
  | .cons c rest => textContent c ++ textContentF rest
end

/-- One zipper crumb: the surrounding element of the current node, with the
siblings before it (nearest first) and after it (in order). -/
structure Crumb where
  tag : String
  attrs : List (String × String)
  before : List HNode
  after : List HNode

/-- A position inside a document tree: the current node plus the stack of
crumbs up to the root.  This models an `HTMLElement` handle together with
its structural relationships. -/
structure Loc where
  crumbs : List Crumb
  cur : HNode

/-- Split a list around the first entry satisfying `p`. -/
def splitFirst {α : Type} (p : α → Bool) : List α → Option (List α × α × List α)
  | [] => none
  | x :: xs =>
    if p x then some ([], x, xs)
    else (splitFirst p xs).map (fun y => (x :: y.1, y.2.1, y.2.2))

/-- Split a list around the last entry satisfying `p`, returning the parts
in original order. -/
def splitLast {α : Type} (p : α → Bool) (xs : List α) : Option (List α × α × List α) :=
  (splitFirst p xs.reverse).map (fun y => (y.2.2.reverse, y.2.1, y.1.reverse))

/-- `parentNode` of the external parser: `none` at the document root. -/
def parentLoc (l : Loc) : Option Loc :=
  match l.crumbs with
  | [] => none
  | cb :: rest => some ⟨rest, .elem cb.tag cb.attrs (hf (cb.before.reverse ++ l.cur :: cb.after))⟩

/-- `nextElementSibling`: nearest following sibling that is an element. -/
def nextElemSib (l : Loc) : Option Loc :=
  match l.crumbs with
  | [] => none
  | cb :: rest =>
    match splitFirst HNode.isElem cb.after with
    | none => none
    | some (pre, e, post) =>
      some ⟨{ cb with before := pre.reverse ++ l.cur :: cb.before, after := post } :: rest, e⟩

/-- `previousElementSibling`: nearest preceding sibling that is an element. -/
def prevElemSib (l : Loc) : Option Loc :=
  match l.crumbs with
  | [] => none
  | cb :: rest =>
    match splitFirst HNode.isElem cb.before with
    | none => none
    | some (pre, e, post) =>
      some ⟨{ cb with before := post, after := pre.reverse ++ l.cur :: cb.after } :: rest, e⟩

/-- `firstChild` of `scripts/dump.ts`: the first element child, or
`Err "element has no HTMLElement child"`. -/
def firstChild (l : Loc) : Result Loc String :=
  match l.cur with
  | .text _ => .Err "element has no HTMLElement child"
  | .elem t a cs =>
    match splitFirst HNode.isElem cs.toList with
    | none => .Err "element has no HTMLElement child"
    | some (pre, e, post) => .Ok ⟨⟨t, a, pre.reverse, post⟩ :: l.crumbs, e⟩

/-- `lastChild` of `scripts/dump.ts`: the last element child, or
`Err "element has no HTMLElement child"`. -/
def lastChild (l : Loc) : Result Loc String :=
  match l.cur with
  | .text _ => .Err "element has no HTMLElement child"
  | .elem t a cs =>
    match splitLast HNode.isElem cs.toList with
    | none => .Err "element has no HTMLElement child"
    | some (pre, e, post) => .Ok ⟨⟨t, a, pre.reverse, post⟩ :: l.crumbs, e⟩

/-- State of the `walk` loop of `scripts/dump.ts`.  `ok none` is the state
`Result.Ok(null)` that arises from taking `^` at the document root;
`panic` models a thrown JavaScript `TypeError` (property access on a
nullish current value). -/
inductive WalkSt where
  | ok (cur : Option Loc)
  | err (msg : String)
  | panic
deriving Inhabited

/-- The path-so-far text interpolated into the error messages of `walk`:
the literal `root` at the first directive, otherwise the first `i`
characters of the direction string. -/
def pathName (full : List Char) (i : Nat) : String :=
  if i = 0 then "root" else String.mk (full.take i)

/-- One iteration of the `walk` loop at character `c` (index `i` of the
direction string `full`).  An `Err` state breaks out of the loop; a nullish
current value makes the five directives throw (the switch has no default
case, so any other character leaves the state untouched). -/
def stepChar (full : List Char) (i : Nat) (c : Char) (st : WalkSt) : WalkSt :=
  match st with
  | .panic => .panic
  | .err m => .err m
  | .ok cur =>
    if c = Char.ofNat 94 then
      match cur with
      | none => .panic
      | some l => .ok (parentLoc l)
    else if c = Char.ofNat 62 then
      match cur with
      | none => .panic
      | some l =>
        match nextElemSib l with
        | some s => .ok (some s)
        | none => .err ("missing next sibling at path " ++ apos ++ pathName full i ++ apos)
    else if c = Char.ofNat 60 then
      match cur with
      | none => .panic
      | some l =>
        match prevElemSib l with
        | some s => .ok (some s)
        | none => .err ("missing previous sibling at path " ++ apos ++ pathName full i ++ apos)
    else if c = Char.ofNat 118 then
      match cur with
      | none => .panic
      | some l =>
        match firstChild l with
        | .Ok s => .ok (some s)
        | .Err _ => .err ("missing child at path " ++ apos ++ pathName full i ++ apos)
    else if c = Char.ofNat 36 then
      match cur with
      | none => .panic
      | some l =>
        match lastChild l with
        | .Ok s => .ok (some s)
        | .Err _ => .err ("missing child at path " ++ apos ++ pathName full i ++ apos)
    else
      .ok cur

/-- The `walk` loop over the remaining directives, carrying the full
direction string and the current index for error messages. -/
def walkAux (pending full : List Char) (i : Nat) (st : WalkSt) : WalkSt :=
  match pending with
  | [] => st
  | c :: rest => walkAux rest full (i + 1) (stepChar full i c st)

/-- `walk(directions)` applied to a possibly nullish starting value (the
starting element comes from callers that may pass `undefined`). -/
def walkJs (directions : String) (start : Option Loc) : WalkSt :=
  walkAux directions.data directions.data 0 (.ok start)

/-- `walk(directions)(el)` of `scripts/dump.ts` on an actual element. -/
def walk (directions : String) (el : Loc) : WalkSt :=
  walkJs directions (some el)

example :
    walk "v" ⟨[], .elem "div" [] .nil⟩ =
      .err ("missing child at path " ++ apos ++ "root" ++ apos) := by rfl
example : walk "^" ⟨[], .elem "div" [] .nil⟩ = .ok none := by rfl
example : walk "^>" ⟨[], .elem "div" [] .nil⟩ = .panic := by rfl

mutual
/-- Paths (child-index sequences) of all nodes in a subtree satisfying
`pred`, in document (preorder) order, the subtree root included as `[]`. -/
def nodePaths (pred : HNode → Bool) : HNode → List (List Nat)
  | .text s => if pred (.text s) then [[]] else []
  | .elem t a cs => (if pred (.elem t a cs) then [[]] else []) ++ nodePathsF pred cs 0
/-- Paths of all matching nodes under a forest starting at child index `i`. -/
def nodePathsF (pred : HNode → Bool) : HForest → Nat → List (List Nat)
  | .nil, _ => []
  | .cons c rest, i => (nodePaths pred c).map (fun p => i :: p) ++ nodePathsF pred rest (i + 1)
end

/-- The `Loc` of child `i` of the current node. -/
def childLoc (l : Loc) (i : Nat) : Option Loc :=
  match l.cur with
  | .text _ => none
  | .elem t a cs =>
    match (cs.toList.drop i).head? with
    | none => none
    | some c => some ⟨⟨t, a, (cs.toList.take i).reverse, cs.toList.drop (i + 1)⟩ :: l.crumbs, c⟩

/-- Descend from a location along a child-index path. -/
def locDescend : Loc → List Nat → Option Loc
  | l, [] => some l
  | l, i :: rest => (childLoc l i).bind (fun l2 => locDescend l2 rest)

/-- The location of the node at `path` inside document `doc`. -/
def locAt (doc : HNode) (path : List Nat) : Option Loc :=
  locDescend ⟨[], doc⟩ path

/-- `querySelectorAll`-style query: locations of all strict descendants of
`doc` satisfying `pred`, in document order. -/
def queryAllLocs (pred : HNode → Bool) (doc : HNode) : List Loc :=
  (match doc with
   | .elem _ _ cs => nodePathsF pred cs 0
   | .text _ => []).filterMap (locAt doc)

/-- `querySelector`-style query: the first match in document order. -/
def queryOne (pred : HNode → Bool) (doc : HNode) : Option Loc :=
  (queryAllLocs pred doc).head?

/-- Split a character list on spaces (the `split(' ')` of class matching),
keeping empty fragments like JavaScript's `split`. -/
def splitSpaces : List Char → List Char → List (List Char)
  | [], acc => [acc.reverse]
  | c :: rest, acc =>
    if c = Char.ofNat 32 then acc.reverse :: splitSpaces rest []
    else splitSpaces rest (c :: acc)

/-- Whether an element's `class` attribute contains the token `cls`. -/
def hasClass (n : HNode) (cls : String) : Bool :=
  match n.attr "class" with
  | some v => (splitSpaces v.data []).contains cls.data
  | none => false

/-- The tag of an element node. -/
def HNode.tagOf : HNode → String
  | .text _ => ""
  | .elem t _ _ => t

/-- The selector `div.lcs-container`. -/
def lcsSel (n : HNode) : Bool :=
  n.tagOf = "div" && hasClass n "lcs-container"

/-- The selector `.pi-horizontal-group`. -/
def piSel (n : HNode) : Bool :=
  hasClass n "pi-horizontal-group"

/-- The selector `[data-source=v]`. -/
def dataSourceSel (v : String) (n : HNode) : Bool :=
  n.attr "data-source" = some v

/-- The element children of the current node, as locations in order
(`children` of `scripts/dump.ts`). -/
def elemChildLocs (l : Loc) : List Loc :=
  (List.range l.cur.childList.length).filterMap
    (fun i => (childLoc l i).bind (fun cl => if cl.cur.isElem then some cl else none))

/-- One field handed to the assembler: either a `Result` or a plain value
(`Result | plain` union of the `makeObj` argument object). -/
inductive MkField (V E : Type) where
  | res (r : Result V E)
  | plain (v : V)
deriving DecidableEq, Repr

/-- Whether a field carries an `Err` value. -/
def MkField.isErrField {V E : Type} : MkField V E → Bool
  | .res (.Err _) => true
  | _ => false

/-- The unwrapped success value of a field, when it has one. -/
def MkField.okVal {V E : Type} : MkField V E → Option V
  | .res (.Ok v) => some v
  | .res (.Err _) => none
  | .plain v => some v

/-- The error value of a field, when it has one. -/
def MkField.errVal {V E : Type} : MkField V E → Option E
  | .res (.Err e) => some e
  | _ => none

/-- The loop of `makeObj` in `scripts/index.ts`: distribute each field into
the success record or the error map, preserving field order. -/
def makeObjAux {V E : Type} :
    List (String × MkField V E) → List (String × V) → List (String × E) →
      List (String × V) × List (String × E)
  | [], ok, err => (ok, err)
  | (k, f) :: rest, ok, err =>
    match f with
    | .res (.Ok v) => makeObjAux rest (ok ++ [(k, v)]) err
    | .res (.Err e) => makeObjAux rest ok (err ++ [(k, e)])
    | .plain v => makeObjAux rest (ok ++ [(k, v)]) err

/-- `makeObj` of `scripts/index.ts`: `Ok` with the full success record when
the error map is empty, `Err` with the error map otherwise. -/
def makeObj {V E : Type} (m : List (String × MkField V E)) :
    Result (List (String × V)) (List (String × E)) :=
  let r := makeObjAux m [] []
  if r.2.isEmpty then .Ok r.1 else .Err r.2

/-- The success side of the assembler, directly as a `filterMap`. -/
def okList {V E : Type} (m : List (String × MkField V E)) : List (String × V) :=
  m.filterMap (fun p => (p.2.okVal).map (fun v => (p.1, v)))

/-- The error side of the assembler, directly as a `filterMap`. -/
def errList {V E : Type} (m : List (String × MkField V E)) : List (String × E) :=
  m.filterMap (fun p => (p.2.errVal).map (fun e => (p.1, e)))

theorem makeObjAux_eq {V E : Type} (m : List (String × MkField V E)) :
    ∀ ok err, makeObjAux m ok err = (ok ++ okList m, err ++ errList m) := by
  induction m with
  | nil => intro ok err; simp [makeObjAux, okList, errList]
  | cons p rest ih =>
    intro ok err
    obtain ⟨k, f⟩ := p
    match f with
    | .res (.Ok v) =>
      simp [makeObjAux, ih, okList, errList, MkField.okVal, MkField.errVal]
    | .res (.Err e) =>
      simp [makeObjAux, ih, okList, errList, MkField.okVal, MkField.errVal]
    | .plain v =>
      simp [makeObjAux, ih, okList, errList, MkField.okVal, MkField.errVal]

theorem makeObj_eq {V E : Type} (m : List (String × MkField V E)) :
    makeObj m = if (errList m).isEmpty then .Ok (okList m) else .Err (errList m) := by
  show (let r := makeObjAux m [] []; if r.2.isEmpty then Result.Ok r.1 else Result.Err r.2) = _
  rw [makeObjAux_eq]
  simp

/-- The value of one extracted record field: a string, one of the parsed
enum values, or JavaScript `undefined` (for the optional weapon name). -/
inductive FVal where
  | vstr (s : String)
  | vrar (r : Rarity)
  | vbur (b : Burst)
  | vcode (c : Code)
  | vweap (w : Weapon)
  | vpos (p : Position)
  | vman (m : Manufacturer)
  | vundefined
deriving DecidableEq, Repr

/-- The first `.pi-horizontal-group` element (`tb1` of `extractNikke`),
absent (`undefined`) when the document has none. -/
def tb1 (doc : HNode) : Option Loc :=
  (queryAllLocs piSel doc).get? 0

/-- The second `.pi-horizontal-group` element (`tb2` of `extractNikke`). -/
def tb2 (doc : HNode) : Option Loc :=
  (queryAllLocs piSel doc).get? 1

/-- The pattern `walk(dirs)(start).flatMap(e => Result.FromNullish(e.attrs[name], msg))`
shared by the six walked fields of `extractNikke`.  `none` models a thrown
exception: the walk itself threw, or the walk produced `Ok(null)` and the
attribute access dereferenced `null`. -/
def walkAttrField (start : Option Loc) (dirs attrName msg : String) :
    Option (Result String String) :=
  match walkJs dirs start with
  | .panic => none
  | .ok none => none
  | .err m => some (.Err m)
  | .ok (some l) => some (Result.FromNullish (l.cur.attr attrName) msg)

/-- The `name` field of `extractNikke`. -/
def nameField (doc : HNode) : Result FVal String :=
  (Result.FromNullish (queryOne (dataSourceSel "title") doc)
      "could not find [data-source=title] in document").map
    (fun l => .vstr (textContent l.cur))

/-- The `rarity` field of `extractNikke`. -/
def rarityField (doc : HNode) : Option (Result FVal String) :=
  (walkAttrField (tb1 doc) "$vvvvv" "alt" "missing \"alt\" attribute").map
    (fun r => r.flatMap (fun s => (parseRarity s).map .vrar))

/-- The `burst` field of `extractNikke`. -/
def burstField (doc : HNode) : Option (Result FVal String) :=
  (walkAttrField (tb1 doc) "$v$vvv" "alt" "missing \"alt\" attribute").map
    (fun r => r.flatMap (fun s => (parseBurst s).map .vbur))

/-- The `weapon_name` field of `extractNikke`: any failure is converted to
the plain value `undefined` by `orDefault`. -/
def weaponNameField (doc : HNode) : FVal :=
  match (((Result.FromNullish (queryOne (dataSourceSel "weaponname") doc)
        "could not find [data-source=weaponname] in document").flatMap
      lastChild).map (fun l => (some (textContent l.cur) : Option String))).orDefault
    none with
  | some s => .vstr s
  | none => .vundefined

/-- The `squad` field of `extractNikke`. -/
def squadField (doc : HNode) : Result FVal String :=
  ((Result.FromNullish (queryOne (dataSourceSel "squad") doc)
        "could not find [data-source=squad] in document").flatMap
    lastChild).map (fun l => .vstr (textContent l.cur))

/-- The `code` field of `extractNikke`. -/
def codeField (doc : HNode) : Option (Result FVal String) :=
  (walkAttrField (tb2 doc) "$vvvv" "title" "missing \"title\" attribute").map
    (fun r => r.flatMap (fun s => (parseCode s).map .vcode))

/-- The `weapon_type` field of `extractNikke`. -/
def weaponTypeField (doc : HNode) : Option (Result FVal String) :=
  (walkAttrField (tb2 doc) "$vv>vv" "title" "missing \"title\" attribute").map
    (fun r => r.flatMap (fun s => (parseWeapon s).map .vweap))

/-- The `position` field of `extractNikke`. -/
def positionField (doc : HNode) : Option (Result FVal String) :=
  (walkAttrField (tb2 doc) "$v$<vv" "title" "missing \"title\" attribute").map
    (fun r => r.flatMap (fun s => (parsePosition s).map .vpos))

/-- The `manufacturer` field of `extractNikke`. -/
def manufacturerField (doc : HNode) : Option (Result FVal String) :=
  (walkAttrField (tb2 doc) "$v$vv" "title" "missing \"title\" attribute").map
    (fun r => r.flatMap (fun s => (parseManufacturer s).map .vman))

/-- `extractNikke` of `scripts/dump.ts`: assemble the nine fields with
`makeObj` in declaration order; `none` models a thrown exception while one
of the walked fields was being computed. -/
def extractNikke (doc : HNode) :
    Option (Result (List (String × FVal)) (List (String × String))) := do
  let rar ← rarityField doc
  let bur ← burstField doc
  let cod ← codeField doc
  let wt ← weaponTypeField doc
  let pos ← positionField doc
  let man ← manufacturerField doc
  pure (makeObj
    [("name", .res (nameField doc)),
     ("rarity", .res rar),
     ("burst", .res bur),
     ("weapon_name", .plain (weaponNameField doc)),
     ("squad", .res (squadField doc)),
     ("code", .res cod),
     ("weapon_type", .res wt),
     ("position", .res pos),
     ("manufacturer", .res man)])

/-- First index at which `needle` occurs in `hay` (JavaScript `indexOf`
without the `-1` encoding). -/
def idxOfAux (needle : List Char) : List Char → Nat → Option Nat
  | [], i => if needle.isEmpty then some i else none
  | b :: bs, i => if occursAt needle (b :: bs) then some i else idxOfAux needle bs (i + 1)

/-- `url.substring(0, url.indexOf('/revision/latest/'))`: JavaScript's
`indexOf` yields `-1` when absent and `substring` clamps it to `0`,
producing the empty string. -/
def trimRevision (url : String) : String :=
  match idxOfAux "/revision/latest/".data url.data 0 with
  | some i => String.mk (url.data.take i)
  | none => ""

/-- JavaScript `a ?? b`. -/
def jsOr {α : Type} (a b : Option α) : Option α :=
  match a with
  | some x => some x
  | none => b

/-- The `link` of one card of `extractNikkeList`:
`walk('vv')(card).mapErr(e => 'could not find <a>: ' + e)`, with `none`
modelling a thrown exception. -/
def cardLink (card : Loc) : Option (Result Loc String) :=
  match walkJs "vv" (some card) with
  | .panic => none
  | .ok none => none
  | .err m => some (.Err ("could not find <a>: " ++ m))
  | .ok (some l) => some (.Ok l)

/-- The `makeObj` call of one card of `extractNikkeList`, given the card's
`link` result. -/
def extractCardRes (link : Result Loc String) :
    Result (List (String × String)) (List (String × String)) :=
  let img := link.flatMap firstChild
  makeObj
    [("name", .res ((img.mapErr (fun e => "missing <img>: " ++ e)).flatMap
        (fun l => Result.FromNullish (l.cur.attr "alt") "missing \"alt\" attribute on image tag"))),
     ("url", .res (((link.mapErr (fun e => "missing <a>: " ++ e)).flatMap
        (fun l => Result.FromNullish (l.cur.attr "href") "missing \"href\" attribute on link")).map
        (fun href => "https://nikke-goddess-of-victory-international.fandom.com" ++ href))),
     ("image_url", .res (((img.mapErr (fun e => "missing <img>: " ++ e)).flatMap
        (fun l => Result.FromNullish (jsOr (l.cur.attr "data-src") (l.cur.attr "src"))
          "could not find image url")).map trimRevision))]

/-- Extraction of one card of `extractNikkeList` (`none` = thrown). -/
def extractCardO (card : Loc) :
    Option (Result (List (String × String)) (List (String × String))) :=
  (cardLink card).map extractCardRes

/-- The card candidates of `extractNikkeList`: element children of the node
reached by `walk('$$')` from the `div.lcs-container` query; any `Err` along
the way is defaulted to the empty list by `orDefault([])`. -/
def cardsOf (doc : HNode) : Option (List Loc) :=
  match queryOne lcsSel doc with
  | none => some []
  | some l =>
    match walkJs "$$" (some l) with
    | .panic => none
    | .ok none => none
    | .err _ => some []
    | .ok (some l2) => some (elemChildLocs l2)

/-- The accumulation loop of `extractNikkeList`: an `Ok` card is pushed
onto the entry list, an `Err` card contributes one logged diagnostic. -/
def extractLoop : List Loc →
    Option (List (List (String × String)) × List (List (String × String)))
  | [] => some ([], [])
  | c :: rest =>
    (extractCardO c).bind (fun r =>
      (extractLoop rest).map (fun acc =>
        match r with
        | .Ok entry => (entry :: acc.1, acc.2)
        | .Err log => (acc.1, log :: acc.2)))

/-- `extractNikkeList` of `scripts/dump.ts`: the per-card loop over the
cards of the listing container, returning the pushed entries and the
logged diagnostics (`none` = thrown exception). -/
def extractNikkeList (doc : HNode) :
    Option (List (List (String × String)) × List (List (String × String))) :=
  (cardsOf doc).bind extractLoop

/-- Two to the thirty-second, the modulus of JavaScript 32-bit operations. -/
def two32 : Nat := 4294967296

/-- Two to the thirty-first. -/
def two31 : Nat := 2147483648

/-- `x << k` on a 32-bit pattern. -/
def shl32 (n k : Nat) : Nat := (n * 2 ^ k) % two32

/-- `x >> 17` (sign-propagating shift) on a 32-bit pattern. -/
def sar17 (n : Nat) : Nat :=
  if n < two31 then n / 131072 else n / 131072 + (two32 - 32768)

/-- `xorShift` of `src/lib/nikke/utils.ts` on the 32-bit bit pattern of the
seed: three xor-shift rounds; the final `& 0xFFFFFFFF` is the identity on
the 32-bit pattern (JavaScript `&` produces a signed 32-bit integer). -/
def xorShift (seed : Nat) : Nat :=
  let s0 := seed % two32
  let s1 := Nat.xor s0 (shl32 s0 13)
  let s2 := Nat.xor s1 (sar17 s1)
  Nat.xor s2 (shl32 s2 5)

/-- The signed value of a 32-bit pattern. -/
def toSigned (n : Nat) : Int :=
  if n < two31 then (n : Int) else (n : Int) - (two32 : Int)

/-- `intRange` of `src/lib/nikke/utils.ts`: JavaScript `%` is the truncated
remainder (`Int.tmod`), applied to the signed value of the mixed seed. -/
def intRange (seed : Nat) (min max : Int) : Int :=
  (Int.tmod (toSigned (xorShift seed)) (max - min)) + min

/-- `pick` of `src/lib/nikke/utils.ts`: `null` on an empty list, otherwise
`list[intRange(seed, 0, list.length)]`; a negative index reads an absent
array property, which JavaScript answers with `undefined` (`none`). -/
def pick {α : Type} (seed : Nat) (list : List α) : Option α :=
  if list.length ≤ 0 then none
  else
    let idx := intRange seed 0 (list.length : Int)
    if idx < 0 then none else list.get? idx.toNat

example : pick 1 [10, 20, 30] = some (let i := (Int.tmod (toSigned (xorShift 1)) 3).toNat; [10, 20, 30].get! i) := by decide

theorem occursAt_self_append (xs ys : List Char) : occursAt xs (xs ++ ys) = true := by
  induction xs with
  | nil => simp [occursAt]
  | cons a as ih => simp [occursAt, ih]

theorem occursIn_nil_needle (hay : List Char) : occursIn [] hay = true := by
  cases hay <;> simp [occursIn, occursAt]

theorem occursIn_mid (pre xs post : List Char) : occursIn xs (pre ++ (xs ++ post)) = true := by
  induction pre with
  | nil =>
    cases xs with
    | nil => simp [occursIn_nil_needle]
    | cons x rest => simpa [occursIn] using Or.inl (occursAt_self_append (x :: rest) post)
  | cons p pre ih => simp [occursIn, ih]

theorem strContains_mid (a s b : String) : strContains (a ++ s ++ b) s = true := by
  have h : (a ++ s ++ b).data = a.data ++ s.data ++ b.data := by
    rw [String.data_append, String.data_append]
  simp only [strContains, h, List.append_assoc]
  exact occursIn_mid a.data s.data b.data

/-- The five directive characters of the navigation language. -/
def dirChars : List Char := [Char.ofNat 94, Char.ofNat 62, Char.ofNat 60, Char.ofNat 118, Char.ofNat 36]

/-- One directive step as a pure partial navigation function: the reached
node, `none` when the structural requirement fails (for a non-directive
character the step is a no-op, as in the source's defaultless switch). -/
def navStep (c : Char) (l : Loc) : Option Loc :=
  if c = Char.ofNat 94 then parentLoc l
  else if c = Char.ofNat 62 then nextElemSib l
  else if c = Char.ofNat 60 then prevElemSib l
  else if c = Char.ofNat 118 then
    match firstChild l with
    | .Ok s => some s
    | .Err _ => none
  else if c = Char.ofNat 36 then
    match lastChild l with
    | .Ok s => some s
    | .Err _ => none
  else some l

/-- Run a sequence of directive steps, failing on the first unsatisfied
one. -/
def navChain : List Char → Loc → Option Loc
  | [], l => some l
  | c :: cs, l => (navStep c l).bind (navChain cs)

/-- The message stem used by `walk` for a failing directive. -/
def failName (c : Char) : String :=
  if c = Char.ofNat 62 then "missing next sibling"
  else if c = Char.ofNat 60 then "missing previous sibling"
  else "missing child"

theorem walkAux_err (pending full : List Char) (i : Nat) (m : String) :
    walkAux pending full i (.err m) = .err m := by
  induction pending generalizing i with
  | nil => rfl
  | cons c rest ih => simp [walkAux, stepChar, ih]

theorem stepChar_of_navStep_some (full : List Char) (i : Nat) (c : Char) (l l2 : Loc)
    (h : navStep c l = some l2) :
    stepChar full i c (.ok (some l)) = .ok (some l2) := by
  by_cases h1 : c = Char.ofNat 94
  · simp [navStep, h1] at h
    simp [stepChar, h1, h]
  · by_cases h2 : c = Char.ofNat 62
    · simp [navStep, h1, h2] at h
      simp [stepChar, h1, h2, h]
    · by_cases h3 : c = Char.ofNat 60
      · simp [navStep, h1, h2, h3] at h
        simp [stepChar, h1, h2, h3, h]
      · by_cases h4 : c = Char.ofNat 118
        · simp only [navStep, h1, h2, h3, h4, if_false, if_true, if_neg, if_pos] at h
          simp only [stepChar, h1, h2, h3, h4, if_false, if_true, if_neg, if_pos]
          cases hfc : firstChild l with
          | Ok s => rw [hfc] at h; simp at h; simp [h]
          | Err e => rw [hfc] at h; simp at h
        · by_cases h5 : c = Char.ofNat 36
          · simp only [navStep, h1, h2, h3, h4, h5, if_false, if_true, if_neg, if_pos] at h
            simp only [stepChar, h1, h2, h3, h4, h5, if_false, if_true, if_neg, if_pos]
            cases hlc : lastChild l with
            | Ok s => rw [hlc] at h; simp at h; simp [h]
            | Err e => rw [hlc] at h; simp at h
          · simp [navStep, h1, h2, h3, h4, h5] at h
            simp [stepChar, h1, h2, h3, h4, h5, h]

theorem stepChar_of_navStep_none (full : List Char) (i : Nat) (c : Char) (l : Loc)
    (hc : c ∈ [Char.ofNat 62, Char.ofNat 60, Char.ofNat 118, Char.ofNat 36])
    (h : navStep c l = none) :
    stepChar full i c (.ok (some l)) =
      .err (failName c ++ " at path " ++ apos ++ pathName full i ++ apos) := by
  have h94 : ¬ c = Char.ofNat 94 := by
    intro hcontra; subst hcontra; simp at hc
  simp only [List.mem_cons, List.mem_singleton, List.not_mem_nil, or_false] at hc
  rcases hc with h2 | h3 | h4 | h5
  · subst h2
    simp [navStep] at h
    simp [stepChar, failName, h]
  · subst h3
    simp [navStep] at h
    simp [stepChar, failName, h]
  · subst h4
    cases hfc : firstChild l with
    | Ok s => simp [navStep, hfc] at h
    | Err e => simp [stepChar, failName, hfc]
  · subst h5
    cases hlc : lastChild l with
    | Ok s => simp [navStep, hlc] at h
    | Err e => simp [stepChar, failName, hlc]

theorem walkAux_of_navChain (cs : List Char) :
    ∀ (rest full : List Char) (i : Nat) (el l2 : Loc),
      navChain cs el = some l2 →
        walkAux (cs ++ rest) full i (.ok (some el)) =
          walkAux rest full (i + cs.length) (.ok (some l2)) := by
  induction cs with
  | nil =>
    intro rest full i el l2 h
    simp [navChain] at h
    subst h
    simp
  | cons c cs ih =>
    intro rest full i el l2 h
    simp only [navChain, Option.bind_eq_some] at h
    obtain ⟨l1, hstep, hchain⟩ := h
    have : walkAux ((c :: cs) ++ rest) full i (.ok (some el)) =
        walkAux (cs ++ rest) full (i + 1) (.ok (some l1)) := by
      simp [walkAux, stepChar_of_navStep_some full i c el l1 hstep]
    rw [this, ih rest full (i + 1) l1 l2 hchain]
    congr 1
    simp only [List.length_cons]
    omega

/-- C3 (amended): if the first `k - 1` characters of the path all take the
walk from `el` to `l2` and the `k`-th character is one of the four
sibling/child directives whose requirement fails there, `walk` returns an
`Err` naming the first `k - 1` characters of the path as the consumed
path — except that at `k = 1` the message names the literal `root` instead
of the empty prefix text. -/
theorem walk_err_names_consumed_path (path : String) (k : Nat) (el l2 : Loc) (c : Char)
    (hk : 1 ≤ k)
    (hchain : navChain (path.data.take (k - 1)) el = some l2)
    (hc : path.data.get? (k - 1) = some c)
    (hfour : c ∈ [Char.ofNat 62, Char.ofNat 60, Char.ofNat 118, Char.ofNat 36])
    (hfail : navStep c l2 = none) :
    walk path el = .err (failName c ++ " at path " ++ apos ++
      (if k = 1 then "root" else String.mk (path.data.take (k - 1))) ++ apos) := by
  have hklen : k - 1 < path.data.length := List.get?_eq_some.mp hc |>.1
  have hsplit : path.data = path.data.take (k - 1) ++ (c :: path.data.drop k) := by
    have h1 : path.data = path.data.take (k - 1) ++ path.data.drop (k - 1) :=
      (List.take_append_drop (k - 1) path.data).symm
    have h2 : path.data.drop (k - 1) = c :: path.data.drop k := by
      have hget := List.get?_eq_get hklen
      rw [hc] at hget
      have hdg : path.data.get ⟨k - 1, hklen⟩ = c := by
        injection hget.symm
      have hk1 : k - 1 + 1 = k := by omega
      rw [List.drop_eq_get_cons hklen, hdg, hk1]
    rw [← h2]
    exact h1
  have htlen : (path.data.take (k - 1)).length = k - 1 :=
    List.length_take_of_le (Nat.le_of_lt hklen)
  calc walk path el
      = walkAux path.data path.data 0 (.ok (some el)) := rfl
    _ = walkAux (path.data.take (k - 1) ++ (c :: path.data.drop k)) path.data 0
          (.ok (some el)) := by rw [← hsplit]
    _ = walkAux (c :: path.data.drop k) path.data (0 + (path.data.take (k - 1)).length)
          (.ok (some l2)) := walkAux_of_navChain _ _ _ _ _ _ hchain
    _ = .err (failName c ++ " at path " ++ apos ++
          (if k = 1 then "root" else String.mk (path.data.take (k - 1))) ++ apos) := by
        rw [htlen]
        simp only [walkAux, Nat.zero_add]
        rw [stepChar_of_navStep_none path.data (k - 1) c l2 hfour hfail]
        rw [walkAux_err]
        congr 2
        simp only [pathName]
        by_cases hk1 : k = 1
        · subst hk1
          simp
        · have : ¬ (k - 1 = 0) := by omega
          simp [this, hk1]

/-- Concrete document for navigation examples: a root element with a single
element child that itself has no children. -/
def exDoc : Loc := ⟨[], .elem "div" [] (hf [.elem "span" [] .nil])⟩

theorem walk_err_names_consumed_path_witness :
    walk "v>" exDoc = .err ("missing next sibling at path " ++ apos ++ "v" ++ apos) := by
  have h := walk_err_names_consumed_path "v>" 2 exDoc
    ⟨[⟨"div", [], [], []⟩], .elem "span" [] .nil⟩ (Char.ofNat 62)
    (by omega) (by rfl) (by rfl) (by decide) (by rfl)
  simpa using h

/-- C2: taking `^` at the document root does not produce an `Err` — the
walk state becomes `Ok(null)`, and any further directive dereferences the
null current value and throws (modelled by `panic`), so a structurally
absent parent is not reported as a `Result` error. -/
theorem walk_caret_root_throws :
    walk "^>" ⟨[], .elem "html" [] .nil⟩ = .panic ∧
    walk "^^" ⟨[], .elem "html" [] .nil⟩ = .panic ∧
    walk "^v" ⟨[], .elem "html" [] .nil⟩ = .panic ∧
    walk "^" ⟨[], .elem "html" [] .nil⟩ = .ok none :=
  ⟨rfl, rfl, rfl, rfl⟩

/-- C3 (counterexample): when the very first directive fails (`k = 1`), the
error message names the literal `root`, not the empty prefix of the path. -/
theorem walk_first_step_prefix_counterexample :
    walk "v" ⟨[], .elem "div" [] .nil⟩ =
      .err ("missing child at path " ++ apos ++ "root" ++ apos) ∧
    ("missing child at path " ++ apos ++ "root" ++ apos) ≠
      ("missing child at path " ++ apos ++ "" ++ apos) ∧
    strContains ("missing child at path " ++ apos ++ "root" ++ apos) "root" = true :=
  ⟨rfl, by decide, by decide⟩

/-- C9: a character that is not one of the five directives is silently
ignored by the `walk` loop — the state (in particular the current node) is
unchanged, no error and no exception is produced, and the loop moves on to
the next character. -/
theorem walk_unknown_directive_ignored (full : List Char) (i : Nat) (c : Char) (st : WalkSt)
    (h : ¬ c ∈ dirChars) :
    stepChar full i c st = st ∧
    ∀ rest, walkAux (c :: rest) full i st = walkAux rest full (i + 1) st := by
  simp only [dirChars, List.mem_cons, List.not_mem_nil, or_false, not_or] at h
  obtain ⟨h1, h2, h3, h4, h5⟩ := h
  have hstep : stepChar full i c st = st := by
    cases st with
    | panic => rfl
    | err m => rfl
    | ok cur => simp [stepChar, h1, h2, h3, h4, h5]
  exact ⟨hstep, fun rest => by simp [walkAux, hstep]⟩

theorem walk_unknown_directive_ignored_witness :
    stepChar "xv".data 0 (Char.ofNat 120) (.ok (some exDoc)) = .ok (some exDoc) :=
  (walk_unknown_directive_ignored "xv".data 0 (Char.ofNat 120) (.ok (some exDoc))
    (by decide)).1

theorem MkField.errVal_eq_none_iff {V E : Type} (f : MkField V E) :
    f.errVal = none ↔ f.isErrField = false := by
  cases f with
  | res r => cases r <;> simp [MkField.errVal, MkField.isErrField]
  | plain v => simp [MkField.errVal, MkField.isErrField]

theorem MkField.errVal_eq_some_iff {V E : Type} (f : MkField V E) :
    (∃ e, f.errVal = some e) ↔ f.isErrField = true := by
  cases f with
  | res r => cases r <;> simp [MkField.errVal, MkField.isErrField]
  | plain v => simp [MkField.errVal, MkField.isErrField]

theorem errList_eq_nil_iff {V E : Type} (m : List (String × MkField V E)) :
    errList m = [] ↔ ∀ p ∈ m, p.2.isErrField = false := by
  simp only [errList, List.filterMap_eq_nil, Option.map_eq_none']
  constructor
  · intro h p hp
    exact (MkField.errVal_eq_none_iff p.2).mp (h p hp)
  · intro h p hp
    exact (MkField.errVal_eq_none_iff p.2).mpr (h p hp)

theorem mem_errList_keys_iff {V E : Type} (m : List (String × MkField V E)) (k : String) :
    k ∈ (errList m).map Prod.fst ↔ ∃ p ∈ m, p.1 = k ∧ p.2.isErrField = true := by
  simp only [List.mem_map, errList, List.mem_filterMap, Option.map_eq_some']
  constructor
  · rintro ⟨x, ⟨p, hp, e, he, hxe⟩, hk⟩
    refine ⟨p, hp, ?_, (MkField.errVal_eq_some_iff p.2).mp ⟨e, he⟩⟩
    rw [← hk, ← hxe]
  · rintro ⟨p, hp, hk, herr⟩
    obtain ⟨e, he⟩ := (MkField.errVal_eq_some_iff p.2).mpr herr
    exact ⟨(p.1, e), ⟨p, hp, e, he, rfl⟩, hk⟩

/-- C1: `makeObj` produces an error exactly when some field is an `Err`;
in that case the error map's key set is exactly the set of failing field
names and the error map is non-empty (so an error with an empty report is
impossible); and on an all-`Ok` mapping it produces `Ok` populated from
every field's unwrapped value. -/
theorem makeObj_error_report_exact {V E : Type} (m : List (String × MkField V E)) :
    ((makeObj m).isErr = true ↔ ∃ p ∈ m, p.2.isErrField = true) ∧
    (∀ e, makeObj m = .Err e →
      ((∀ k, k ∈ e.map Prod.fst ↔ ∃ p ∈ m, p.1 = k ∧ p.2.isErrField = true) ∧ e ≠ [])) ∧
    ((∀ p ∈ m, p.2.isErrField = false) →
      makeObj m = .Ok (okList m) ∧
      ∀ p ∈ m, ∃ v, p.2.okVal = some v ∧ (p.1, v) ∈ okList m) := by
  refine ⟨?_, ?_, ?_⟩
  · rw [makeObj_eq]
    by_cases h : (errList m).isEmpty
    · rw [if_pos h]
      simp only [Result.isErr, Bool.false_eq_true, false_iff]
      rw [List.isEmpty_iff] at h
      rw [errList_eq_nil_iff] at h
      push_neg
      intro p hp
      simp [h p hp]
    · rw [if_neg h]
      simp only [Result.isErr, true_iff]
      rw [Bool.not_eq_true, List.isEmpty_eq_false_iff_exists_mem] at h
      obtain ⟨x, hx⟩ := h
      have : x.1 ∈ (errList m).map Prod.fst := List.mem_map_of_mem Prod.fst hx
      rw [mem_errList_keys_iff] at this
      obtain ⟨p, hp, _, herr⟩ := this
      exact ⟨p, hp, herr⟩
  · intro e he
    rw [makeObj_eq] at he
    by_cases h : (errList m).isEmpty
    · rw [if_pos h] at he
      exact absurd he (by simp)
    · rw [if_neg h] at he
      have hee : e = errList m := by injection he with h2; exact h2.symm
      subst hee
      refine ⟨fun k => mem_errList_keys_iff m k, ?_⟩
      intro hnil
      rw [hnil] at h
      exact h rfl
  · intro hall
    have hnil : errList m = [] := (errList_eq_nil_iff m).mpr hall
    refine ⟨by rw [makeObj_eq, hnil]; rfl, ?_⟩
    intro p hp
    have hok : ∃ v, p.2.okVal = some v := by
      have := hall p hp
      cases hf : p.2 with
      | res r =>
        cases r with
        | Ok v => exact ⟨v, by simp [MkField.okVal]⟩
        | Err e => rw [hf] at this; simp [MkField.isErrField] at this
      | plain v => exact ⟨v, by simp [MkField.okVal]⟩
    obtain ⟨v, hv⟩ := hok
    exact ⟨v, hv, List.mem_filterMap.mpr ⟨p, hp, by rw [hv]; rfl⟩⟩

/-- A mapping with one plain field, one `Err` field and one `Ok` field. -/
def exErrM : List (String × MkField Nat String) :=
  [("a", .plain 1), ("b", .res (.Err "x")), ("c", .res (.Ok 2))]

/-- A mapping with one plain field and one `Ok` field. -/
def exOkM : List (String × MkField Nat String) :=
  [("a", .plain 1), ("c", .res (.Ok 2))]

theorem makeObj_error_report_exact_witness :
    ((makeObj exErrM).isErr = true ↔ ∃ p ∈ exErrM, p.2.isErrField = true) ∧
    (("b" ∈ ([("b", "x")] : List (String × String)).map Prod.fst ↔
        ∃ p ∈ exErrM, p.1 = "b" ∧ p.2.isErrField = true) ∧
      ([("b", "x")] : List (String × String)) ≠ []) ∧
    makeObj exOkM = .Ok (okList exOkM) :=
  ⟨(makeObj_error_report_exact exErrM).1,
   ⟨((makeObj_error_report_exact exErrM).2.1 [("b", "x")] (by decide)).1 "b",
    ((makeObj_error_report_exact exErrM).2.1 [("b", "x")] (by decide)).2⟩,
   ((makeObj_error_report_exact exOkM).2.2 (by decide)).1⟩

theorem nodupKeys_inj {α β : Type} (l : List (α × β)) (hnd : (l.map Prod.fst).Nodup) :
    ∀ p q, p ∈ l → q ∈ l → p.1 = q.1 → p = q := by
  induction l with
  | nil => simp
  | cons x xs ih =>
    simp only [List.map_cons, List.nodup_cons] at hnd
    obtain ⟨hx, hnd2⟩ := hnd
    intro p q hp hq hk
    rcases List.mem_cons.mp hp with hp1 | hp1 <;> rcases List.mem_cons.mp hq with hq1 | hq1
    · rw [hp1, hq1]
    · subst hp1
      exact absurd (hk ▸ List.mem_map_of_mem Prod.fst hq1) hx
    · subst hq1
      exact absurd (hk ▸ List.mem_map_of_mem Prod.fst hp1) hx
    · exact ih hnd2 p q hp1 hq1 hk

/-- C8: a field given to `makeObj` as a plain (non-`Result`) value never
contributes to the error map, and is copied unchanged into the success
record whenever one is produced. -/
theorem makeObj_plain_field_always_ok {V E : Type} (m : List (String × MkField V E))
    (k : String) (v : V) (hnd : (m.map Prod.fst).Nodup)
    (hmem : (k, MkField.plain v) ∈ m) :
    (∀ e, makeObj m = .Err e → ¬ k ∈ e.map Prod.fst) ∧
    (∀ r, makeObj m = .Ok r → (k, v) ∈ r) := by
  constructor
  · intro e he hk
    rw [makeObj_eq] at he
    by_cases h : (errList m).isEmpty
    · rw [if_pos h] at he
      exact absurd he (by simp)
    · rw [if_neg h] at he
      have hee : e = errList m := by injection he with h2; exact h2.symm
      subst hee
      rw [mem_errList_keys_iff] at hk
      obtain ⟨p, hp, hpk, herr⟩ := hk
      have : p = (k, MkField.plain v) :=
        nodupKeys_inj m hnd p (k, MkField.plain v) hp hmem (by rw [hpk])
      rw [this] at herr
      simp [MkField.isErrField] at herr
  · intro r hr
    rw [makeObj_eq] at hr
    by_cases h : (errList m).isEmpty
    · rw [if_pos h] at hr
      have hrr : r = okList m := by injection hr with h2; exact h2.symm
      subst hrr
      exact List.mem_filterMap.mpr ⟨(k, MkField.plain v), hmem, rfl⟩
    · rw [if_neg h] at hr
      exact absurd hr (by simp)

theorem makeObj_plain_field_always_ok_witness :
    ¬ "a" ∈ ([("b", "x")] : List (String × String)).map Prod.fst ∧
    ("a", 1) ∈ ([("a", 1), ("c", 2)] : List (String × Nat)) :=
  ⟨(makeObj_plain_field_always_ok exErrM "a" 1 (by decide) (by decide)).1
      [("b", "x")] (by decide),
   (makeObj_plain_field_always_ok exOkM "a" 1 (by decide) (by decide)).2
      [("a", 1), ("c", 2)] (by decide)⟩

/-- C5 (counterexample): the xorshift mix can yield a negative signed
32-bit value (the final `& 0xFFFFFFFF` keeps the sign bit), so the
JavaScript remainder is negative and `pick` reads an absent array slot,
returning `undefined` instead of an element of the list. -/
theorem pick_out_of_range_counterexample :
    pick 262144 ([0, 1, 2, 3] : List Nat) = none ∧
    toSigned (xorShift 262144) < 0 ∧
    intRange 262144 0 4 = -2 :=
  ⟨by decide, by decide, by decide⟩

/-- C5 (amended): on a non-empty list, `pick` computes the JavaScript
remainder of the signed mixed seed by the list length; when the mixed
value is non-negative the index is non-negative, any non-negative index is
in range and `pick` returns the list element there, and a negative index
yields `undefined` (`none`). -/
theorem pick_signed_mixed_mod {α : Type} (seed : Nat) (l : List α) (hl : l ≠ []) :
    (0 ≤ toSigned (xorShift seed) → 0 ≤ intRange seed 0 (l.length : Int)) ∧
    (∀ _ : 0 ≤ intRange seed 0 (l.length : Int),
      ∃ hlt : (intRange seed 0 (l.length : Int)).toNat < l.length,
        pick seed l = some (l.get ⟨(intRange seed 0 (l.length : Int)).toNat, hlt⟩)) ∧
    (intRange seed 0 (l.length : Int) < 0 → pick seed l = none) := by
  have hpos : (0 : Int) < (l.length : Int) := by
    have := List.length_pos.mpr hl
    exact_mod_cast this
  have hlen : ¬ l.length ≤ 0 := by omega
  refine ⟨?_, ?_, ?_⟩
  · intro hmix
    simp only [intRange, Int.sub_zero, Int.add_zero]
    exact Int.tmod_nonneg _ hmix
  · intro h0
    have hub : intRange seed 0 (l.length : Int) < (l.length : Int) := by
      simp only [intRange, Int.sub_zero, Int.add_zero]
      exact Int.tmod_lt_of_pos _ hpos
    have hlt : (intRange seed 0 (l.length : Int)).toNat < l.length := by
      omega
    refine ⟨hlt, ?_⟩
    simp only [pick, if_neg hlen]
    rw [if_neg (by omega)]
    exact List.get?_eq_get hlt
  · intro hneg
    simp only [pick, if_neg hlen]
    rw [if_pos hneg]

theorem pick_signed_mixed_mod_witness :
    pick 1 ([10, 20, 30] : List Nat) = some 10 ∧
    (0 : Int) ≤ intRange 1 0 3 := by
  obtain ⟨hlt, heq⟩ :=
    (pick_signed_mixed_mod 1 ([10, 20, 30] : List Nat) (by decide)).2.1 (by decide)
  exact ⟨heq.trans rfl, by decide⟩

/-- C10: `pick` on an empty list returns `null` (modelled `none`) for every
seed, rather than throwing or producing an element. -/
theorem pick_empty_list_null (α : Type) (seed : Nat) : pick seed ([] : List α) = none := rfl

/-- C4 (counterexample): `parseCode` on an input with no parenthesized word
stringifies the failed regular-expression extraction, so the error message
says `undefined` and does not contain the offending raw input. -/
theorem parseCode_err_omits_raw_input :
    parseCode "foo" = .Err ("unknown element code " ++ apos ++ "undefined" ++ apos) ∧
    strContains ("unknown element code " ++ apos ++ "undefined" ++ apos) "foo" = false :=
  ⟨by decide, by decide⟩

/-- C4 (amended): each listed literal maps to its enum value; the five
switch-based parsers answer any other input with an `Err` that contains
the raw input; `parseCode` switches on the extracted parenthesized
substring and its `Err` names that substring (or the text `undefined` when
there is none), not necessarily the raw input. -/
theorem parsers_literal_map_and_err_naming :
    (parseRarity "R" = .Ok .R ∧ parseRarity "Sr" = .Ok .Sr ∧ parseRarity "Ssr" = .Ok .Ssr) ∧
    (∀ s, s ≠ "R" → s ≠ "Sr" → s ≠ "Ssr" →
      parseRarity s = .Err ("unknown rarity " ++ apos ++ s ++ apos) ∧
      strContains ("unknown rarity " ++ apos ++ s ++ apos) s = true) ∧
    (parseBurst "Step1" = .Ok .I ∧ parseBurst "Step2" = .Ok .II ∧
      parseBurst "Step3" = .Ok .III ∧ parseBurst "StepAll" = .Ok .A) ∧
    (∀ s, s ≠ "Step1" → s ≠ "Step2" → s ≠ "Step3" → s ≠ "StepAll" →
      parseBurst s = .Err ("unknown burst " ++ apos ++ s ++ apos) ∧
      strContains ("unknown burst " ++ apos ++ s ++ apos) s = true) ∧
    (parseWeapon "Shotgun" = .Ok .Shotgun ∧ parseWeapon "Submachine Gun" = .Ok .SubmachineGun ∧
      parseWeapon "Machine Gun" = .Ok .MachineGun ∧ parseWeapon "Assault Rifle" = .Ok .AssaultRifle ∧
      parseWeapon "Sniper Rifle" = .Ok .SniperRifle ∧ parseWeapon "Rocket Launcher" = .Ok .RocketLauncher) ∧
    (∀ s, s ≠ "Shotgun" → s ≠ "Submachine Gun" → s ≠ "Machine Gun" → s ≠ "Assault Rifle" →
        s ≠ "Sniper Rifle" → s ≠ "Rocket Launcher" →
      parseWeapon s = .Err ("unknown weapon " ++ apos ++ s ++ apos) ∧
      strContains ("unknown weapon " ++ apos ++ s ++ apos) s = true) ∧
    (parsePosition "Category:Attackers" = .Ok .Attacker ∧
      parsePosition "Category:Supporters" = .Ok .Supporter ∧
      parsePosition "Category:Defenders" = .Ok .Defender) ∧
    (∀ s, s ≠ "Category:Attackers" → s ≠ "Category:Supporters" → s ≠ "Category:Defenders" →
      parsePosition s = .Err ("unknown position " ++ apos ++ s ++ apos) ∧
      strContains ("unknown position " ++ apos ++ s ++ apos) s = true) ∧
    (parseManufacturer "Elysion" = .Ok .Elysion ∧ parseManufacturer "Missilis Industry" = .Ok .Missilis ∧
      parseManufacturer "Tetra Line" = .Ok .Tetra ∧ parseManufacturer "Pilgrim" = .Ok .Pilgrim ∧
      parseManufacturer "Abnormal" = .Ok .Abnormal) ∧
    (∀ s, s ≠ "Elysion" → s ≠ "Missilis Industry" → s ≠ "Tetra Line" → s ≠ "Pilgrim" →
        s ≠ "Abnormal" →
      parseManufacturer s = .Err ("unknown manufacturer " ++ apos ++ s ++ apos) ∧
      strContains ("unknown manufacturer " ++ apos ++ s ++ apos) s = true) ∧
    (parseCode "(Fire)" = .Ok .Fire ∧ parseCode "(Water)" = .Ok .Water ∧
      parseCode "(Electric)" = .Ok .Electric ∧ parseCode "(Iron)" = .Ok .Iron ∧
      parseCode "(Wind)" = .Ok .Wind) ∧
    (∀ s e, findParen s.data = some e →
      e ≠ "(Fire)" → e ≠ "(Water)" → e ≠ "(Electric)" → e ≠ "(Iron)" → e ≠ "(Wind)" →
      parseCode s = .Err ("unknown element code " ++ apos ++ e ++ apos)) ∧
    (∀ s, findParen s.data = none →
      parseCode s = .Err ("unknown element code " ++ apos ++ "undefined" ++ apos)) := by
  refine ⟨⟨by decide, by decide, by decide⟩, ?_,
    ⟨by decide, by decide, by decide, by decide⟩, ?_,
    ⟨by decide, by decide, by decide, by decide, by decide, by decide⟩, ?_,
    ⟨by decide, by decide, by decide⟩, ?_,
    ⟨by decide, by decide, by decide, by decide, by decide⟩, ?_,
    ⟨by decide, by decide, by decide, by decide, by decide⟩, ?_, ?_⟩
  · intro s h1 h2 h3
    exact ⟨by simp [parseRarity, h1, h2, h3], strContains_mid _ s apos⟩
  · intro s h1 h2 h3 h4
    exact ⟨by simp [parseBurst, h1, h2, h3, h4], strContains_mid _ s apos⟩
  · intro s h1 h2 h3 h4 h5 h6
    exact ⟨by simp [parseWeapon, h1, h2, h3, h4, h5, h6], strContains_mid _ s apos⟩
  · intro s h1 h2 h3
    exact ⟨by simp [parsePosition, h1, h2, h3], strContains_mid _ s apos⟩
  · intro s h1 h2 h3 h4 h5
    exact ⟨by simp [parseManufacturer, h1, h2, h3, h4, h5], strContains_mid _ s apos⟩
  · intro s e hfp h1 h2 h3 h4 h5
    simp [parseCode, hfp, h1, h2, h3, h4, h5]
  · intro s hfp
    simp [parseCode, hfp]

theorem parsers_literal_map_and_err_naming_witness :
    (parseRarity "Bogus" = .Err ("unknown rarity " ++ apos ++ "Bogus" ++ apos) ∧
      strContains ("unknown rarity " ++ apos ++ "Bogus" ++ apos) "Bogus" = true) ∧
    (parseBurst "Bogus" = .Err ("unknown burst " ++ apos ++ "Bogus" ++ apos) ∧
      strContains ("unknown burst " ++ apos ++ "Bogus" ++ apos) "Bogus" = true) ∧
    (parseWeapon "Bogus" = .Err ("unknown weapon " ++ apos ++ "Bogus" ++ apos) ∧
      strContains ("unknown weapon " ++ apos ++ "Bogus" ++ apos) "Bogus" = true) ∧
    (parsePosition "Bogus" = .Err ("unknown position " ++ apos ++ "Bogus" ++ apos) ∧
      strContains ("unknown position " ++ apos ++ "Bogus" ++ apos) "Bogus" = true) ∧
    (parseManufacturer "Bogus" = .Err ("unknown manufacturer " ++ apos ++ "Bogus" ++ apos) ∧
      strContains ("unknown manufacturer " ++ apos ++ "Bogus" ++ apos) "Bogus" = true) ∧
    parseCode "xx(Plasma)y" = .Err ("unknown element code " ++ apos ++ "(Plasma)" ++ apos) ∧
    parseCode "nothing" = .Err ("unknown element code " ++ apos ++ "undefined" ++ apos) :=
  ⟨parsers_literal_map_and_err_naming.2.1 "Bogus" (by decide) (by decide) (by decide),
   parsers_literal_map_and_err_naming.2.2.2.1 "Bogus" (by decide) (by decide) (by decide) (by decide),
   parsers_literal_map_and_err_naming.2.2.2.2.2.1 "Bogus" (by decide) (by decide) (by decide)
     (by decide) (by decide) (by decide),
   parsers_literal_map_and_err_naming.2.2.2.2.2.2.2.1 "Bogus" (by decide) (by decide) (by decide),
   parsers_literal_map_and_err_naming.2.2.2.2.2.2.2.2.2.1 "Bogus" (by decide) (by decide)
     (by decide) (by decide) (by decide),
   parsers_literal_map_and_err_naming.2.2.2.2.2.2.2.2.2.2.2.1 "xx(Plasma)y" "(Plasma)"
     (by decide) (by decide) (by decide) (by decide) (by decide) (by decide),
   parsers_literal_map_and_err_naming.2.2.2.2.2.2.2.2.2.2.2.2 "nothing" (by decide)⟩

/-- C6: when the weapon-name anchor `[data-source=weaponname]` is missing,
the `weapon_name` field becomes the plain value `undefined` (never an
`Err`), and `extractNikke` still assembles a success record — with
`weapon_name` bound to `undefined` — whenever every other field is `Ok`. -/
theorem extractNikke_weaponname_absent_ok (doc : HNode)
    (nv rv bv sv cv wv pv mv : FVal)
    (hw : queryOne (dataSourceSel "weaponname") doc = none)
    (hn : nameField doc = .Ok nv)
    (hr : rarityField doc = some (.Ok rv))
    (hb : burstField doc = some (.Ok bv))
    (hs : squadField doc = .Ok sv)
    (hc : codeField doc = some (.Ok cv))
    (hwt : weaponTypeField doc = some (.Ok wv))
    (hp : positionField doc = some (.Ok pv))
    (hm : manufacturerField doc = some (.Ok mv)) :
    weaponNameField doc = FVal.vundefined ∧
    extractNikke doc = some (.Ok
      [("name", nv), ("rarity", rv), ("burst", bv), ("weapon_name", FVal.vundefined),
       ("squad", sv), ("code", cv), ("weapon_type", wv), ("position", pv),
       ("manufacturer", mv)]) := by
  have hwn : weaponNameField doc = FVal.vundefined := by
    simp [weaponNameField, hw, Result.FromNullish, Result.flatMap, Result.map, Result.orDefault]
  refine ⟨hwn, ?_⟩
  simp [extractNikke, hn, hr, hb, hs, hc, hwt, hp, hm, hwn, makeObj_eq, errList, okList,
    MkField.errVal, MkField.okVal, List.filterMap]

/-- Witness document: rarity/burst anchors under the first horizontal
group, code/weapon/position/manufacturer anchors under the second. -/
def wX5 : HNode := .elem "img" [("alt", "Ssr")] .nil

/-- Chain node for the rarity walk. -/
def wX4 : HNode := .elem "div" [] (hf [wX5])

/-- Chain node for the rarity walk. -/
def wX3 : HNode := .elem "div" [] (hf [wX4])

/-- Chain node for the rarity walk. -/
def wX2 : HNode := .elem "div" [] (hf [wX3])

/-- Leaf of the burst walk. -/
def wY4 : HNode := .elem "img" [("alt", "Step1")] .nil

/-- Chain node for the burst walk. -/
def wY3 : HNode := .elem "div" [] (hf [wY4])

/-- Chain node for the burst walk. -/
def wY2 : HNode := .elem "div" [] (hf [wY3])

/-- Chain node for the burst walk. -/
def wY1 : HNode := .elem "div" [] (hf [wY2])

/-- Fork of the rarity (first child) and burst (last child) walks. -/
def wX1 : HNode := .elem "div" [] (hf [wX2, wY1])

/-- Sole child of the first horizontal group. -/
def wA : HNode := .elem "div" [] (hf [wX1])

/-- First `.pi-horizontal-group` element. -/
def wTb1 : HNode := .elem "aside" [("class", "pi-horizontal-group")] (hf [wA])

/-- Leaf of the code walk. -/
def wP4 : HNode := .elem "a" [("title", "(Fire)")] .nil

/-- Chain node for the code walk. -/
def wP3 : HNode := .elem "div" [] (hf [wP4])

/-- First child of the fork: code chain, and start of the sibling step of
the weapon walk. -/
def wP2 : HNode := .elem "div" [] (hf [wP3])

/-- Leaf of the weapon walk. -/
def wQ2 : HNode := .elem "a" [("title", "Shotgun")] .nil

/-- Chain node for the weapon walk. -/
def wQ1 : HNode := .elem "div" [] (hf [wQ2])

/-- Second child of the fork (next sibling of the code chain). -/
def wQ : HNode := .elem "div" [] (hf [wQ1])

/-- Leaf of the position walk. -/
def wS2 : HNode := .elem "a" [("title", "Category:Attackers")] .nil

/-- Chain node for the position walk. -/
def wS1 : HNode := .elem "div" [] (hf [wS2])

/-- Third child of the fork (previous sibling of the last child). -/
def wS : HNode := .elem "div" [] (hf [wS1])

/-- Leaf of the manufacturer walk. -/
def wR2 : HNode := .elem "a" [("title", "Elysion")] .nil

/-- Chain node for the manufacturer walk. -/
def wR1 : HNode := .elem "div" [] (hf [wR2])

/-- Last child of the fork. -/
def wR : HNode := .elem "div" [] (hf [wR1])

/-- Fork of the four walks under the second horizontal group. -/
def wP1 : HNode := .elem "div" [] (hf [wP2, wQ, wS, wR])

/-- Sole child of the second horizontal group. -/
def wB : HNode := .elem "div" [] (hf [wP1])

/-- Second `.pi-horizontal-group` element. -/
def wTb2 : HNode := .elem "aside" [("class", "pi-horizontal-group")] (hf [wB])

/-- A complete record document without a weapon-name anchor. -/
def wDoc : HNode := .elem "html" [] (hf [
  .elem "h1" [("data-source", "title")] (hf [.text "TestName"]),
  .elem "div" [("data-source", "squad")] (hf [.text "label", .elem "span" [] (hf [.text "SquadX"])]),
  wTb1, wTb2])

theorem extractNikke_weaponname_absent_ok_witness :
    weaponNameField wDoc = FVal.vundefined ∧
    extractNikke wDoc = some (.Ok
      [("name", .vstr "TestName"), ("rarity", .vrar .Ssr), ("burst", .vbur .I),
       ("weapon_name", FVal.vundefined), ("squad", .vstr "SquadX"), ("code", .vcode .Fire),
       ("weapon_type", .vweap .Shotgun), ("position", .vpos .Attacker),
       ("manufacturer", .vman .Elysion)]) :=
  extractNikke_weaponname_absent_ok wDoc (.vstr "TestName") (.vrar .Ssr) (.vbur .I)
    (.vstr "SquadX") (.vcode .Fire) (.vweap .Shotgun) (.vpos .Attacker) (.vman .Elysion)
    rfl rfl rfl rfl rfl rfl rfl rfl rfl

/-- A walk state that is either an `Err` or holds an actual element —
i.e. neither a thrown exception nor a nullish `Ok`. -/
def stOkOrErr (st : WalkSt) : Prop :=
  (∃ m, st = .err m) ∨ (∃ l, st = .ok (some l))

theorem stepChar_preserves_stOkOrErr (full : List Char) (i : Nat) (c : Char) (st : WalkSt)
    (hc : c ≠ Char.ofNat 94) (h : stOkOrErr st) : stOkOrErr (stepChar full i c st) := by
  rcases h with ⟨m, rfl⟩ | ⟨l, rfl⟩
  · exact Or.inl ⟨m, rfl⟩
  · simp only [stepChar, if_neg hc]
    by_cases h2 : c = Char.ofNat 62
    · rw [if_pos h2]
      cases hns : nextElemSib l with
      | none => exact Or.inl ⟨_, rfl⟩
      | some s => exact Or.inr ⟨s, rfl⟩
    · rw [if_neg h2]
      by_cases h3 : c = Char.ofNat 60
      · rw [if_pos h3]
        cases hps : prevElemSib l with
        | none => exact Or.inl ⟨_, rfl⟩
        | some s => exact Or.inr ⟨s, rfl⟩
      · rw [if_neg h3]
        by_cases h4 : c = Char.ofNat 118
        · rw [if_pos h4]
          cases hfc : firstChild l with
          | Ok s => exact Or.inr ⟨s, rfl⟩
          | Err e => exact Or.inl ⟨_, rfl⟩
        · rw [if_neg h4]
          by_cases h5 : c = Char.ofNat 36
          · rw [if_pos h5]
            cases hlc : lastChild l with
            | Ok s => exact Or.inr ⟨s, rfl⟩
            | Err e => exact Or.inl ⟨_, rfl⟩
          · rw [if_neg h5]
            exact Or.inr ⟨l, rfl⟩

theorem walkAux_preserves_stOkOrErr (pending : List Char) :
    ∀ (full : List Char) (i : Nat) (st : WalkSt),
      (∀ c ∈ pending, c ≠ Char.ofNat 94) → stOkOrErr st →
        stOkOrErr (walkAux pending full i st) := by
  induction pending with
  | nil => intro full i st _ h; exact h
  | cons c rest ih =>
    intro full i st hc h
    have hc1 : c ≠ Char.ofNat 94 := hc c (List.mem_cons_self c rest)
    have hcr : ∀ x ∈ rest, x ≠ Char.ofNat 94 := fun x hx => hc x (List.mem_cons_of_mem c hx)
    exact ih full (i + 1) (stepChar full i c st)
      hcr (stepChar_preserves_stOkOrErr full i c st hc1 h)

theorem cardsOf_isSome (doc : HNode) : ∃ cs, cardsOf doc = some cs := by
  cases hq : queryOne lcsSel doc with
  | none => exact ⟨[], by simp [cardsOf, hq]⟩
  | some l =>
    have hw : stOkOrErr (walkJs "$$" (some l)) :=
      walkAux_preserves_stOkOrErr "$$".data "$$".data 0 (.ok (some l))
        (by decide) (Or.inr ⟨l, rfl⟩)
    rcases hw with ⟨m, hm⟩ | ⟨l2, hl2⟩
    · exact ⟨[], by simp [cardsOf, hq, hm]⟩
    · exact ⟨elemChildLocs l2, by simp [cardsOf, hq, hl2]⟩

theorem extractCardO_isSome (card : Loc) : ∃ r, extractCardO card = some r := by
  have hw : stOkOrErr (walkJs "vv" (some card)) :=
    walkAux_preserves_stOkOrErr "vv".data "vv".data 0 (.ok (some card))
      (by decide) (Or.inr ⟨card, rfl⟩)
  rcases hw with ⟨m, hm⟩ | ⟨l2, hl2⟩
  · refine ⟨extractCardRes (.Err ("could not find <a>: " ++ m)), ?_⟩
    simp [extractCardO, cardLink, hm]
  · refine ⟨extractCardRes (.Ok l2), ?_⟩
    simp [extractCardO, cardLink, hl2]

theorem extractLoop_spec (cs : List Loc) :
    ∃ entries logs, extractLoop cs = some (entries, logs) ∧
      entries = cs.filterMap (fun c =>
        match extractCardO c with
        | some (.Ok entry) => some entry
        | _ => none) ∧
      logs.length = (cs.filter (fun c =>
        match extractCardO c with
        | some (.Err _) => true
        | _ => false)).length := by
  induction cs with
  | nil => exact ⟨[], [], rfl, rfl, rfl⟩
  | cons c rest ih =>
    obtain ⟨entries, logs, hloop, hent, hlog⟩ := ih
    obtain ⟨r, hr⟩ := extractCardO_isSome c
    cases r with
    | Ok e =>
      refine ⟨e :: entries, logs, ?_, ?_, ?_⟩
      · simp [extractLoop, hr, hloop]
      · simp [hr, hent]
      · simp [hr, hlog]
    | Err lg =>
      refine ⟨entries, lg :: logs, ?_, ?_, ?_⟩
      · simp [extractLoop, hr, hloop]
      · simp [hr, hent]
      · simp [hr, hlog]

/-- C7: list extraction never fails or throws as a whole: it returns
exactly the entries of the cards whose per-card extraction succeeded, in
document order, and one logged diagnostic for each failing card. -/
theorem extractNikkeList_skips_failing_cards (doc : HNode) :
    ∃ cs entries logs,
      cardsOf doc = some cs ∧
      extractNikkeList doc = some (entries, logs) ∧
      entries = cs.filterMap (fun c =>
        match extractCardO c with
        | some (.Ok entry) => some entry
        | _ => none) ∧
      logs.length = (cs.filter (fun c =>
        match extractCardO c with
        | some (.Err _) => true
        | _ => false)).length := by
  obtain ⟨cs, hcs⟩ := cardsOf_isSome doc
  obtain ⟨entries, logs, hloop, hent, hlog⟩ := extractLoop_spec cs
  exact ⟨cs, entries, logs, hcs, by simp [extractNikkeList, hcs, hloop], hent, hlog⟩
